import Mathlib

/-!
Verification of the Kafka event-correlation helper
(`src/common/helpers/kafka-helper.js`) of the pulse-automation-tests
repository.

The helper's wait primitives are modelled shallowly: the stream of raw
messages that kafkajs delivers to the `eachMessage` callback before the
`setTimeout` deadline fires is a `List RawMessage`, processed in arrival
order.  Reaching the end of the list models the deadline elapsing with no
further deliveries.  JavaScript exceptions are modelled with `Option`:
`JSON.parse` returns `none` on undecodable input, and a user filter that
throws is a function returning `none` on that value.

`JSON.stringify` / `JSON.parse` are the ECMAScript builtins the helper
calls; they are embedded as executable Lean functions over a `Json` value
type.  Numbers are modelled as integers (IEEE-754 double formatting is
outside the embedding); strings are well-formed Unicode, so lone
surrogates and surrogate-pair `\u` escapes are out of scope.
-/

/-- The JSON value type the helper's payloads live in.  Mirrors the values
`JSON.parse` can produce, with numbers restricted to integers. -/
inductive Json where
  | null : Json
  | bool (b : Bool) : Json
  | num (n : Int) : Json
  | str (s : String) : Json
  | arr (elems : List Json) : Json
  | obj (fields : List (String × Json)) : Json
deriving Repr

namespace JSON

/-- Decimal digits of a natural number, most significant first, accumulated
onto `acc`.  Used to model how `JSON.stringify` prints integral numbers. -/
def natCharsAux (n : Nat) (acc : List Char) : List Char :=
  if n < 10 then Nat.digitChar n :: acc
  else natCharsAux (n / 10) (Nat.digitChar (n % 10) :: acc)
termination_by n
decreasing_by exact Nat.div_lt_self (by omega) (by omega)

def natChars (n : Nat) : List Char := natCharsAux n []

/-- `JSON.stringify` on an integral number: optional minus sign, then the
decimal digits. -/
def intChars (n : Int) : List Char :=
  if n < 0 then '-' :: natChars n.natAbs else natChars n.natAbs

/-- The escape `JSON.stringify` applies to one character of a string:
quote and backslash are backslash-escaped, the named control characters
get their short escapes, the remaining control characters get `\u00XX`,
and every other character is emitted verbatim. -/
def escapeChar (c : Char) : List Char :=
  if c = '"' then ['\\', '"']
  else if c = '\\' then ['\\', '\\']
  else if c = Char.ofNat 8 then ['\\', 'b']
  else if c = Char.ofNat 12 then ['\\', 'f']
  else if c = '\n' then ['\\', 'n']
  else if c = Char.ofNat 13 then ['\\', 'r']
  else if c = '\t' then ['\\', 't']
  else if c.toNat < 32 then
    ['\\', 'u', '0', '0', Nat.digitChar (c.toNat / 16), Nat.digitChar (c.toNat % 16)]
  else [c]

/-- A JSON string literal: quote, escaped characters, quote. -/
def quoteChars (cs : List Char) : List Char :=
  '"' :: (cs.map escapeChar).flatten ++ ['"']

/-- Characters of the `null` keyword. -/
def nullChars : List Char := ['n', 'u', 'l', 'l']

/-- Characters of the `true` / `false` keyword. -/
def boolChars (b : Bool) : List Char :=
  if b then ['t', 'r', 'u', 'e'] else ['f', 'a', 'l', 's', 'e']

mutual

/-- `JSON.stringify` (compact form, as called with one argument by the
helper), producing the character list of the serialized document. -/
def stringifyChars : Json → List Char
  | .num n => intChars n
  | .str s => quoteChars s.data
  | .bool b => boolChars b
  | .null => nullChars
  | .arr [] => ['[', ']']
  | .arr (x :: xs) => '[' :: (stringifyChars x ++ moreElems xs) ++ [']']
  | .obj [] => [Char.ofNat 123, Char.ofNat 125]
  | .obj (kv :: kvs) => Char.ofNat 123 :: (fieldChars kv ++ moreFields kvs) ++ [Char.ofNat 125]

/-- Comma-separated continuation of an array body. -/
def moreElems : List Json → List Char
  | [] => []
  | x :: xs => ',' :: (stringifyChars x ++ moreElems xs)

/-- One `"key":value` member of an object body. -/
def fieldChars : String × Json → List Char
  | (k, v) => quoteChars k.data ++ ':' :: stringifyChars v

/-- Comma-separated continuation of an object body. -/
def moreFields : List (String × Json) → List Char
  | [] => []
  | kv :: kvs => ',' :: (fieldChars kv ++ moreFields kvs)

end

/-- `JSON.stringify` as a string-to-string function. -/
def stringify (v : Json) : String := String.mk (stringifyChars v)

/-- The JSON whitespace characters `JSON.parse` skips between tokens. -/
def isWs (c : Char) : Bool :=
  c = ' ' || c = '\t' || c = '\n' || c = Char.ofNat 13

def skipWs : List Char → List Char
  | [] => []
  | c :: cs => if isWs c then skipWs cs else c :: cs

/-- Value of one hexadecimal digit, as accepted inside a `\uXXXX` escape. -/
def hexVal (c : Char) : Option Nat :=
  if '0' ≤ c ∧ c ≤ '9' then some (c.toNat - 48)
  else if 'a' ≤ c ∧ c ≤ 'f' then some (c.toNat - 87)
  else if 'A' ≤ c ∧ c ≤ 'F' then some (c.toNat - 55)
  else none

/-- The single-character escapes `JSON.parse` accepts after a backslash
(besides `\uXXXX`). -/
def unescapeChar (e : Char) : Option Char :=
  if e = '"' then some '"'
  else if e = '\\' then some '\\'
  else if e = '/' then some '/'
  else if e = 'b' then some (Char.ofNat 8)
  else if e = 'f' then some (Char.ofNat 12)
  else if e = 'n' then some '\n'
  else if e = 'r' then some (Char.ofNat 13)
  else if e = 't' then some '\t'
  else none

/-- Body of a JSON string literal, after the opening quote: returns the
decoded characters and the input remaining after the closing quote.
Raw control characters are rejected, as `JSON.parse` rejects them;
`\uXXXX` escapes must denote a Unicode scalar value (surrogate halves are
outside this embedding's strings). -/
def parseStringBody : List Char → Option (List Char × List Char)
  | [] => none
  | c :: rest =>
    if c = '"' then some ([], rest)
    else if c = '\\' then
      match rest with
      | [] => none
      | e :: rest2 =>
        if e = 'u' then
          match rest2 with
          | h1 :: h2 :: h3 :: h4 :: rest3 =>
            match hexVal h1, hexVal h2, hexVal h3, hexVal h4 with
            | some a, some b, some c3, some d =>
              let n := ((a * 16 + b) * 16 + c3) * 16 + d
              if n < 0xd800 then
                match parseStringBody rest3 with
                | some (s, r) => some (Char.ofNat n :: s, r)
                | none => none
              else if 0xe000 ≤ n then
                match parseStringBody rest3 with
                | some (s, r) => some (Char.ofNat n :: s, r)
                | none => none
              else none
            | _, _, _, _ => none
          | _ => none
        else
          match unescapeChar e with
          | some c2 =>
            match parseStringBody rest2 with
            | some (s, r) => some (c2 :: s, r)
            | none => none
          | none => none
    else if c.toNat < 32 then none
    else
      match parseStringBody rest with
      | some (s, r) => some (c :: s, r)
      | none => none

/-- Longest prefix of decimal digits. -/
def spanDigits : List Char → List Char × List Char
  | [] => ([], [])
  | c :: cs =>
    if c.isDigit then
      let p := spanDigits cs
      (c :: p.1, p.2)
    else ([], c :: cs)

/-- Numeric value of a list of decimal digits. -/
def digitsVal (ds : List Char) : Nat :=
  ds.foldl (fun acc c => acc * 10 + (c.toNat - 48)) 0

/-- An unsigned JSON number.  `JSON.parse` rejects a leading zero on a
multi-digit number; a following `.`, `e` or `E` would start a fraction or
exponent, which is outside this embedding's integer-number fragment. -/
def parseNatNum (cs : List Char) : Option (Nat × List Char) :=
  match spanDigits cs with
  | ([], _) => none
  | (d :: ds, rest) =>
    if d = '0' ∧ ds ≠ [] then none
    else
      match rest with
      | [] => some (digitsVal (d :: ds), [])
      | c :: _ =>
        if c = '.' ∨ c = 'e' ∨ c = 'E' then none
        else some (digitsVal (d :: ds), rest)

/-- A JSON number token: optional minus sign, then digits. -/
def parseNum (cs : List Char) : Option (Json × List Char) :=
  match cs with
  | [] => none
  | c :: cs1 =>
    if c = '-' then
      match parseNatNum cs1 with
      | some (n, rest) => some (.num (-(n : Int)), rest)
      | none => none
    else
      match parseNatNum (c :: cs1) with
      | some (n, rest) => some (.num (n : Int), rest)
      | none => none

/-- Match an expected literal tail (of `null` / `true` / `false`). -/
def expectLit : List Char → Json → List Char → Option (Json × List Char)
  | [], v, cs => some (v, cs)
  | _ :: _, _, [] => none
  | l :: lit, v, c :: cs => if c = l then expectLit lit v cs else none

mutual

/-- One JSON value, fuel-indexed recursive descent mirroring `JSON.parse`.
Returns the value and the unconsumed remainder. -/
def parseVal : Nat → List Char → Option (Json × List Char)
  | 0, _ => none
  | fuel + 1, cs =>
    match skipWs cs with
    | [] => none
    | c :: rest =>
      if c = 'n' then expectLit ['u', 'l', 'l'] .null rest
      else if c = 't' then expectLit ['r', 'u', 'e'] (.bool true) rest
      else if c = 'f' then expectLit ['a', 'l', 's', 'e'] (.bool false) rest
      else if c = '"' then
        match parseStringBody rest with
        | some (s, r) => some (.str (String.mk s), r)
        | none => none
      else if c = '[' then
        match skipWs rest with
        | [] => none
        | c2 :: rest2 =>
          if c2 = ']' then some (.arr [], rest2)
          else
            match parseElems fuel (c2 :: rest2) with
            | some (vs, r) => some (.arr vs, r)
            | none => none
      else if c = Char.ofNat 123 then
        match skipWs rest with
        | [] => none
        | c2 :: rest2 =>
          if c2 = Char.ofNat 125 then some (.obj [], rest2)
          else
            match parseFields fuel (c2 :: rest2) with
            | some (kvs, r) => some (.obj kvs, r)
            | none => none
      else parseNum (c :: rest)

/-- Elements of a non-empty array body: value, then `,` more or `]`. -/
def parseElems : Nat → List Char → Option (List Json × List Char)
  | 0, _ => none
  | fuel + 1, cs =>
    match parseVal fuel cs with
    | none => none
    | some (v, r) =>
      match skipWs r with
      | [] => none
      | c :: r2 =>
        if c = ',' then
          match parseElems fuel r2 with
          | some (vs, r3) => some (v :: vs, r3)
          | none => none
        else if c = ']' then some ([v], r2)
        else none

/-- Members of a non-empty object body: `"key" : value`, then `,` more
or the closing brace. -/
def parseFields : Nat → List Char → Option (List (String × Json) × List Char)
  | 0, _ => none
  | fuel + 1, cs =>
    match skipWs cs with
    | [] => none
    | c :: rest =>
      if c = '"' then
        match parseStringBody rest with
        | none => none
        | some (k, r1) =>
          match skipWs r1 with
          | [] => none
          | c2 :: r2 =>
            if c2 = ':' then
              match parseVal fuel r2 with
              | none => none
              | some (v, r3) =>
                match skipWs r3 with
                | [] => none
                | c3 :: r4 =>
                  if c3 = ',' then
                    match parseFields fuel r4 with
                    | some (kvs, r5) => some ((String.mk k, v) :: kvs, r5)
                    | none => none
                  else if c3 = Char.ofNat 125 then some ([(String.mk k, v)], r4)
                  else none
            else none
      else none

end

/-- `JSON.parse`: parse one value and require only whitespace after it.
Undecodable input gives `none`, modelling the thrown `SyntaxError`. -/
def parse (s : String) : Option Json :=
  match parseVal (s.length + 1) s.data with
  | some (v, rest) => if skipWs rest = [] then some v else none
  | none => none

/-- A continuation after which a number token is read back unchanged: the
next character (if any) neither extends the digit string nor starts a
fraction or exponent. -/
def numDelim : List Char → Prop
  | [] => True
  | c :: _ => c.isDigit = false ∧ c ≠ '.' ∧ c ≠ 'e' ∧ c ≠ 'E'

mutual

/-- Fuel sufficient for `parseVal` to parse a value: one unit per value
node and one per list step, mirroring the fuel discipline of the
recursive descent. -/
def jsonFuel : Json → Nat
  | .arr [] => 1
  | .arr (x :: xs) => 1 + elemsFuel (x :: xs)
  | .obj [] => 1
  | .obj (kv :: kvs) => 1 + fieldsFuel (kv :: kvs)
  | _ => 1

def elemsFuel : List Json → Nat
  | [] => 0
  | x :: xs => 1 + jsonFuel x + elemsFuel xs

def fieldsFuel : List (String × Json) → Nat
  | [] => 0
  | (_, v) :: kvs => 1 + jsonFuel v + fieldsFuel kvs

end

end JSON

/-- No repeated string among a list of object keys. -/
def noDupStr : List String → Bool
  | [] => true
  | k :: ks => (!ks.contains k) && noDupStr ks

mutual

/-- A value all of whose objects have pairwise-distinct keys: the image
of an actual JavaScript value.  (A JS object cannot carry duplicate
keys; `JSON.parse` collapses duplicates last-wins, while the model
parser keeps the member list verbatim, so the two agree exactly on this
fragment.) -/
def wfKeys : Json → Bool
  | .arr xs => wfKeysArr xs
  | .obj kvs => noDupStr (kvs.map Prod.fst) && wfKeysObj kvs
  | _ => true

def wfKeysArr : List Json → Bool
  | [] => true
  | x :: xs => wfKeys x && wfKeysArr xs

def wfKeysObj : List (String × Json) → Bool
  | [] => true
  | (_, v) :: kvs => wfKeys v && wfKeysObj kvs

end

/-! ## The Kafka helper's wait primitives -/

/-- One raw message as kafkajs hands it to the `eachMessage` callback:
`message.key` and `message.value` are byte buffers (modelled as strings,
`null` key as `none`), `message.offset` and `message.timestamp` are
decimal strings, `partition` is a number. -/
structure RawMessage where
  topic : String
  partition : Nat
  offset : String
  key : Option String
  value : String
  timestamp : String
deriving Repr, DecidableEq

/-- The record `consumeMessage` resolves with on a match (and
`consumeMessages` accumulates): topic, partition, offset, stringified
key or null, decoded value, timestamp. -/
structure ConsumedMessage where
  topic : String
  partition : Nat
  offset : String
  key : Option String
  value : Json
  timestamp : String
deriving Repr

/-- A JavaScript exception escaping the `try` block of the `eachMessage`
handler: either `JSON.parse` threw on the payload, or the user filter
threw on the decoded value. -/
inductive JsError where
  | parseFailure (raw : String) : JsError
  | filterRaise (v : Json) : JsError
deriving Repr

/-- Outcome of the promise inside `consumeMessage`: resolved with a
matching message, resolved with `null` at the deadline, or rejected. -/
inductive AwaitOneResult where
  | found (m : ConsumedMessage) : AwaitOneResult
  | timedOut : AwaitOneResult
  | errored (e : JsError) : AwaitOneResult
deriving Repr

/-- Outcome of the promise inside `consumeMessages`: resolved with the
accumulated list (at the cap or at the deadline), or rejected. -/
inductive AwaitManyResult where
  | resolved (ms : List ConsumedMessage) : AwaitManyResult
  | errored (e : JsError) : AwaitManyResult
deriving Repr

/-- `message.key ? message.key.toString() : null`: a delivered key buffer
(even an empty one — buffers are truthy) is stringified, a `null` key
stays `null`. -/
def consumedKeyOf : Option String → Option String
  | some s => some s
  | none => none

/-- The result record built at a match, from the `eachMessage` arguments
and the decoded value. -/
def toConsumed (m : RawMessage) (v : Json) : ConsumedMessage :=
  { topic := m.topic
    partition := m.partition
    offset := m.offset
    key := consumedKeyOf m.key
    value := v
    timestamp := m.timestamp }

/-- `!filter || filter(value)`: no filter means every decoded value
matches; a present filter is applied and may throw (`none`). -/
def applyFilter (filter : Option (Json → Option Bool)) (v : Json) : Option Bool :=
  match filter with
  | none => some true
  | some f => f v

/-- What the body of the `eachMessage` handler does with one candidate:
`JSON.parse` the payload (a throw is caught), apply the filter (a throw
is caught), and classify the candidate as a match, a non-match, or an
error reaching the `catch` block. -/
inductive CandidateStep where
  | hit (c : ConsumedMessage) : CandidateStep
  | miss : CandidateStep
  | bad (e : JsError) : CandidateStep
deriving Repr

def classify (filter : Option (Json → Option Bool)) (m : RawMessage) : CandidateStep :=
  match JSON.parse m.value with
  | none => .bad (.parseFailure m.value)
  | some v =>
    match applyFilter filter v with
    | none => .bad (.filterRaise v)
    | some true => .hit (toConsumed m v)
    | some false => .miss

/-- The promise body of `consumeMessage` over the messages delivered
before the deadline, in arrival order.  The second component records
whether `this.consumer.stop()` was awaited before settling: it is on the
match path and on the `catch` path, but the `setTimeout` callback only
logs and resolves `null`. -/
def runOne (filter : Option (Json → Option Bool)) :
    List RawMessage → AwaitOneResult × Bool
  | [] => (.timedOut, false)
  | m :: rest =>
    match classify filter m with
    | .hit c => (.found c, true)
    | .miss => runOne filter rest
    | .bad e => (.errored e, true)

/-- The promise body of `consumeMessages`: matches are pushed onto the
accumulator `acc`; after a push, `messages.length >= maxMessages` stops
the consumer and resolves early; the deadline resolves whatever has been
accumulated, again without stopping the consumer; the `catch` path stops
and rejects. -/
def runMany (filter : Option (Json → Option Bool)) (maxMessages : Nat) :
    List RawMessage → List ConsumedMessage → AwaitManyResult × Bool
  | [], acc => (.resolved acc, false)
  | m :: rest, acc =>
    match classify filter m with
    | .hit c =>
      let acc2 := acc ++ [c]
      if maxMessages ≤ acc2.length then (.resolved acc2, true)
      else runMany filter maxMessages rest acc2
    | .miss => runMany filter maxMessages rest acc
    | .bad e => (.errored e, true)

/-- The options object of `consumeMessage`, with `none` for a property the
caller left undefined (so the destructuring default applies). -/
structure ConsumeOneOptions where
  filter : Option (Json → Option Bool) := none
  timeout : Option Int := none
  fromBeginning : Option Bool := none

/-- The options object of `consumeMessages`. -/
structure ConsumeManyOptions where
  maxMessages : Option Nat := none
  filter : Option (Json → Option Bool) := none
  timeout : Option Int := none
  fromBeginning : Option Bool := none

/-- The argument record of `this.consumer.subscribe({ topic, fromBeginning })`. -/
structure SubscribeCall where
  topic : String
  fromBeginning : Bool
deriving Repr, DecidableEq

/-- A whole call to one of the wait primitives: either the synchronous
`Kafka is not connected` throw (the only check made before subscribing),
or a run that subscribed with the recorded arguments, armed the timer
with the recorded timeout, and produced an outcome. -/
inductive ConsumeCall (α : Type) where
  | notConnected : ConsumeCall α
  | ran (sub : SubscribeCall) (timeoutMs : Int) (outcome : α) : ConsumeCall α
deriving Repr

/-- The subscribe invocation a call performed, if it reached one. -/
def subscribeOf {α : Type} : ConsumeCall α → Option SubscribeCall
  | .notConnected => none
  | .ran sub _ _ => some sub

namespace KafkaHelper

/-- `KafkaHelper.consumeMessage(topic, options)` over the messages
delivered before its deadline.  Defaults mirror the destructuring:
`filter = null`, `timeout = 10000`, `fromBeginning = true`.  No
validation of `topic` or `timeout` is performed. -/
def consumeMessage (isConnected : Bool) (topic : String)
    (opts : ConsumeOneOptions) (stream : List RawMessage) :
    ConsumeCall (AwaitOneResult × Bool) :=
  if !isConnected then .notConnected
  else
    .ran { topic := topic, fromBeginning := opts.fromBeginning.getD true }
      (opts.timeout.getD 10000)
      (runOne opts.filter stream)

/-- `KafkaHelper.consumeMessages(topic, options)`, with
`maxMessages = 10` as the destructuring default. -/
def consumeMessages (isConnected : Bool) (topic : String)
    (opts : ConsumeManyOptions) (stream : List RawMessage) :
    ConsumeCall (AwaitManyResult × Bool) :=
  if !isConnected then .notConnected
  else
    .ran { topic := topic, fromBeginning := opts.fromBeginning.getD true }
      (opts.timeout.getD 10000)
      (runMany opts.filter (opts.maxMessages.getD 10) stream [])

/-- The record `KafkaHelper.produceMessage(topic, message, key)` sends:
`key: key ? String(key) : null` — so a falsy key (no key, or the empty
string) is sent as `null` — and `value: JSON.stringify(message)`. -/
structure ProducedRecord where
  key : Option String
  value : String
deriving Repr, DecidableEq

def produceMessage (isConnected : Bool) (message : Json) (key : Option String) :
    Option ProducedRecord :=
  if !isConnected then none
  else
    some
      { key :=
          match key with
          | some k => if k = "" then none else some k
          | none => none
        value := JSON.stringify message }

end KafkaHelper

/-- Broker delivery of a produced record back to a consumer: the byte
payloads travel unchanged; partition, offset and timestamp are assigned
by the broker. -/
def deliver (r : KafkaHelper.ProducedRecord) (topic : String) (partition : Nat)
    (offset timestamp : String) : RawMessage :=
  { topic := topic
    partition := partition
    offset := offset
    key := r.key
    value := r.value
    timestamp := timestamp }

/-! ## Characterization helpers -/

/-- A candidate that does not reach the `catch` block: its payload
decodes and the filter returns rather than throwing. -/
def isClean (filter : Option (Json → Option Bool)) (m : RawMessage) : Bool :=
  match classify filter m with
  | .bad _ => false
  | _ => true

/-- The consumed record a candidate contributes when it is a match. -/
def matchOf (filter : Option (Json → Option Bool)) (m : RawMessage) :
    Option ConsumedMessage :=
  match classify filter m with
  | .hit c => some c
  | _ => none

/-- The satisfying events of a delivered stream, in arrival order. -/
def cleanMatches (filter : Option (Json → Option Bool))
    (s : List RawMessage) : List ConsumedMessage :=
  s.filterMap (matchOf filter)

/-- First candidate classification that is not a miss: the event that
settles a single-message wait, if any. -/
def firstSignal (filter : Option (Json → Option Bool)) :
    List RawMessage → Option CandidateStep
  | [] => none
  | m :: rest =>
    match classify filter m with
    | .miss => firstSignal filter rest
    | st => some st

/-! ## Concrete inputs for witnesses and counterexamples -/

/-- A raw delivery on the demo topic carrying the given payload bytes at
the given offset. -/
def rawMsg (value offset : String) : RawMessage :=
  { topic := "order-events"
    partition := 0
    offset := offset
    key := none
    value := value
    timestamp := "1700000000000" }

/-- A filter selecting numeric payloads at least 2, used to exercise
first-match selection. -/
def demoFilter : Option (Json → Option Bool) :=
  some fun v =>
    match v with
    | .num n => some (decide (2 ≤ n))
    | _ => some false

/-- Master characterization of `runOne`: the wait settles on the first
candidate that is not a miss — found on a hit, rejected on an error —
and resolves `null` without stopping the consumer when every delivered
candidate missed. -/
theorem runOne_eq_firstSignal (f : Option (Json → Option Bool)) (s : List RawMessage) :
    runOne f s =
      match firstSignal f s with
      | some (.hit c) => (.found c, true)
      | some (.bad e) => (.errored e, true)
      | _ => (.timedOut, false) := by
  induction s with
  | nil => rfl
  | cons m rest ih =>
    simp only [runOne, firstSignal]
    cases classify f m with
    | hit c => rfl
    | miss => exact ih
    | bad e => rfl

/-- On an all-miss prefix, `firstSignal` looks past it. -/
theorem firstSignal_append_miss (f : Option (Json → Option Bool))
    (pre s : List RawMessage) (h : ∀ m ∈ pre, classify f m = .miss) :
    firstSignal f (pre ++ s) = firstSignal f s := by
  induction pre with
  | nil => rfl
  | cons m rest ih =>
    have hm : classify f m = .miss := h m (List.mem_cons_self m rest)
    simp only [List.cons_append, firstSignal, hm]
    exact ih (fun x hx => h x (List.mem_cons_of_mem m hx))

/-- On a clean stream, the first signal is exactly the head of the list
of satisfying events. -/
theorem firstSignal_clean (f : Option (Json → Option Bool)) (s : List RawMessage)
    (h : ∀ m ∈ s, isClean f m = true) :
    firstSignal f s = (cleanMatches f s).head?.map .hit := by
  induction s with
  | nil => rfl
  | cons m rest ih =>
    have hm : isClean f m = true := h m (List.mem_cons_self m rest)
    have hrest : ∀ x ∈ rest, isClean f x = true :=
      fun x hx => h x (List.mem_cons_of_mem m hx)
    simp only [firstSignal, cleanMatches, List.filterMap_cons, matchOf]
    cases hc : classify f m with
    | hit c => rfl
    | miss => exact ih hrest
    | bad e => simp [isClean, hc] at hm

/-- Accumulator-generalized characterization of `runMany` on a clean
stream with room left below the cap: the run resolves with the
accumulator extended by the satisfying events up to the remaining room,
stopping the consumer exactly when the cap is reached. -/
theorem runMany_clean_go (f : Option (Json → Option Bool)) (k : Nat)
    (s : List RawMessage) (acc : List ConsumedMessage)
    (hroom : acc.length < k) (h : ∀ m ∈ s, isClean f m = true) :
    runMany f k s acc =
      (.resolved (acc ++ (cleanMatches f s).take (k - acc.length)),
        decide (k - acc.length ≤ (cleanMatches f s).length)) := by
  induction s generalizing acc with
  | nil =>
    simp only [runMany, cleanMatches, List.filterMap_nil, List.take_nil,
      List.append_nil, List.length_nil]
    have : ¬ (k - acc.length ≤ 0) := by omega
    simp [this]
  | cons m rest ih =>
    have hm : isClean f m = true := h m (List.mem_cons_self m rest)
    have hrest : ∀ x ∈ rest, isClean f x = true :=
      fun x hx => h x (List.mem_cons_of_mem m hx)
    cases hc : classify f m with
    | bad e => simp [isClean, hc] at hm
    | miss =>
      simp only [runMany, hc, cleanMatches, List.filterMap_cons, matchOf]
      exact ih acc hroom hrest
    | hit c =>
      simp only [runMany, hc, cleanMatches, List.filterMap_cons, matchOf]
      simp only [List.length_append, List.length_cons, List.length_nil]
      by_cases hcap : k ≤ acc.length + 1
      · have hk : k = acc.length + 1 := by omega
        have h1 : k - acc.length = 1 := by omega
        simp [hcap, h1, hk]
      · have hlt : (acc ++ [c]).length < k := by
          simp only [List.length_append, List.length_cons, List.length_nil]; omega
        have := ih (acc ++ [c]) hlt hrest
        simp only [hcap, if_false, this, List.length_append, List.length_cons,
          List.length_nil, List.append_assoc]
        have h2 : k - acc.length = (k - (acc.length + 1)) + 1 := by omega
        rw [h2]
        simp only [List.take_succ_cons, List.cons_append, List.nil_append,
          Nat.zero_add, cleanMatches, Prod.mk.injEq]
        refine ⟨trivial, ?_⟩
        rw [decide_eq_decide]
        omega

/-! ## Claim C1 -/

/-- Claim C1, as stated, is false on the code: a candidate whose payload
fails to decode is NOT logged-and-skipped.  On the stream carrying the
undecodable payload `oops` followed by a decodable matching payload `1`
(no filter, so every decoded event matches), `consumeMessage`'s promise
body rejects with the decode error and never reaches the later matching
event — property P6 of the spec would require the match. -/
theorem C1_counterexample :
    runOne none [rawMsg "oops" "0", rawMsg "1" "1"] =
      (.errored (.parseFailure "oops"), true) ∧
    (runOne none [rawMsg "oops" "0", rawMsg "1" "1"]).1 ≠
      .found (toConsumed (rawMsg "1" "1") (.num 1)) := by
  refine ⟨rfl, ?_⟩
  intro h
  exact AwaitOneResult.noConfusion h

/-- Claim C1, amended: a candidate whose payload fails to decode, or on
which the filter throws, ABORTS the whole wait — the `catch` block stops
the consumer and rejects with that error, and no later event (here the
arbitrary suffix `rest`) is ever considered. -/
theorem C1_amended_abort (f : Option (Json → Option Bool))
    (pre : List RawMessage) (bad : RawMessage) (rest : List RawMessage)
    (e : JsError) (hpre : ∀ m ∈ pre, classify f m = .miss)
    (hbad : classify f bad = .bad e) :
    runOne f (pre ++ bad :: rest) = (.errored e, true) := by
  rw [runOne_eq_firstSignal, firstSignal_append_miss f pre _ hpre]
  simp [firstSignal, hbad]

theorem C1_witness :
    runOne (some fun _ => some false)
      ([rawMsg "1" "0"] ++ rawMsg "oops" "1" :: [rawMsg "2" "2"]) =
      (.errored (.parseFailure "oops"), true) :=
  C1_amended_abort (some fun _ => some false) [rawMsg "1" "0"]
    (rawMsg "oops" "1") [rawMsg "2" "2"] (.parseFailure "oops")
    (by
      intro m hm
      rw [List.mem_singleton] at hm
      subst hm
      rfl)
    rfl

/-! ## Claim C2 -/

/-- Claim C2, as stated, is false on the code: on the timeout exit path
the consumer is NOT stopped.  With no deliveries, `consumeMessage`
resolves `null` at the deadline with the stop flag still `false` — the
`setTimeout` callback only logs and resolves. -/
theorem C2_counterexample :
    KafkaHelper.consumeMessage true "order-events" {} [] =
      .ran { topic := "order-events", fromBeginning := true } 10000
        (.timedOut, false) ∧
    ((AwaitOneResult.timedOut, false) : AwaitOneResult × Bool).2 ≠ true := by
  exact ⟨rfl, by decide⟩

/-- Claim C2, amended: `consumer.stop()` is awaited on the match exit and
on the error exit of both wait primitives, and on `consumeMessages`'s
cap exit, but NOT on the deadline (timeout) exit, which resolves with the
consumer still running. -/
theorem C2_amended_teardown :
    (∀ (f : Option (Json → Option Bool)) (s : List RawMessage)
        (c : ConsumedMessage),
        (runOne f s).1 = .found c → (runOne f s).2 = true) ∧
    (∀ (f : Option (Json → Option Bool)) (s : List RawMessage) (e : JsError),
        (runOne f s).1 = .errored e → (runOne f s).2 = true) ∧
    (∀ (f : Option (Json → Option Bool)) (s : List RawMessage),
        (runOne f s).1 = .timedOut → (runOne f s).2 = false) ∧
    (∀ (f : Option (Json → Option Bool)) (k : Nat)
        (acc : List ConsumedMessage),
        runMany f k [] acc = (.resolved acc, false)) ∧
    (∀ (f : Option (Json → Option Bool)) (k : Nat) (s : List RawMessage)
        (acc : List ConsumedMessage) (e : JsError),
        (runMany f k s acc).1 = .errored e → (runMany f k s acc).2 = true) ∧
    (∀ (f : Option (Json → Option Bool)) (k : Nat) (s : List RawMessage)
        (acc l : List ConsumedMessage),
        runMany f k s acc = (.resolved l, true) → k ≤ l.length) := by
  have hone : ∀ (f : Option (Json → Option Bool)) (s : List RawMessage),
      runOne f s = (.timedOut, false) ∨ (runOne f s).2 = true := by
    intro f s
    rw [runOne_eq_firstSignal]
    cases hfs : firstSignal f s with
    | none => exact Or.inl rfl
    | some st => cases st with
      | hit c => exact Or.inr rfl
      | miss => exact Or.inl rfl
      | bad e => exact Or.inr rfl
  refine ⟨?_, ?_, ?_, ?_, ?_, ?_⟩
  · intro f s c h
    rcases hone f s with heq | hstop
    · rw [heq] at h; exact AwaitOneResult.noConfusion h
    · exact hstop
  · intro f s e h
    rcases hone f s with heq | hstop
    · rw [heq] at h; exact AwaitOneResult.noConfusion h
    · exact hstop
  · intro f s h
    rcases hone f s with heq | hstop
    · rw [heq]
    · rw [runOne_eq_firstSignal] at h hstop ⊢
      cases hfs : firstSignal f s with
      | none => rfl
      | some st =>
        rw [hfs] at h
        cases st with
        | hit c => exact AwaitOneResult.noConfusion h
        | miss => rfl
        | bad e => exact AwaitOneResult.noConfusion h
  · intro f k acc; rfl
  · intro f k s
    induction s with
    | nil =>
      intro acc e h
      exact AwaitManyResult.noConfusion h
    | cons m rest ih =>
      intro acc e h
      cases hc : classify f m with
      | hit c =>
        simp only [runMany, hc] at h ⊢
        by_cases hcap : k ≤ (acc ++ [c]).length
        · simp only [hcap, if_true] at h
          exact AwaitManyResult.noConfusion h
        · simp only [hcap, if_false] at h ⊢
          exact ih (acc ++ [c]) e h
      | miss =>
        simp only [runMany, hc] at h ⊢
        exact ih acc e h
      | bad e2 =>
        simp only [runMany, hc]
  · intro f k s
    induction s with
    | nil =>
      intro acc l h
      have h2 : (false : Bool) = true := congrArg Prod.snd h
      exact Bool.noConfusion h2
    | cons m rest ih =>
      intro acc l h
      cases hc : classify f m with
      | hit c =>
        simp only [runMany, hc] at h
        by_cases hcap : k ≤ (acc ++ [c]).length
        · simp only [hcap, if_true, Prod.mk.injEq] at h
          rcases h with ⟨h1, -⟩
          cases h1
          exact hcap
        · simp only [hcap, if_false] at h
          exact ih (acc ++ [c]) l h
      | miss =>
        simp only [runMany, hc] at h
        exact ih acc l h
      | bad e =>
        simp only [runMany, hc, Prod.mk.injEq] at h
        exact absurd h.1 (fun hx => AwaitManyResult.noConfusion hx)

theorem C2_witness :
    (runOne none [rawMsg "1" "0"]).2 = true ∧
    (runOne none ([] : List RawMessage)).2 = false :=
  ⟨C2_amended_teardown.1 none [rawMsg "1" "0"]
      (toConsumed (rawMsg "1" "0") (.num 1)) rfl,
    C2_amended_teardown.2.2.1 none [] rfl⟩

/-! ## Claim C3 -/

/-- Claim C3 (confirmed): when no delivered candidate settles the wait —
no event satisfies the predicate and none errors — `consumeMessage`'s
promise body resolves normally with `null` (the timeout outcome) at the
deadline and raises nothing; and when a candidate does error before any
match, the promise rejects with that error, an outcome distinct from the
timeout result — never downgraded to it. -/
theorem C3_timeout_vs_error (f : Option (Json → Option Bool))
    (s : List RawMessage) :
    (firstSignal f s = none → runOne f s = (.timedOut, false)) ∧
    (∀ e : JsError, firstSignal f s = some (.bad e) →
      runOne f s = (.errored e, true) ∧
        (AwaitOneResult.errored e ≠ .timedOut)) := by
  constructor
  · intro h
    rw [runOne_eq_firstSignal, h]
  · intro e h
    rw [runOne_eq_firstSignal, h]
    exact ⟨rfl, fun hx => AwaitOneResult.noConfusion hx⟩

theorem C3_witness :
    runOne (some fun _ => some false) [rawMsg "1" "0"] = (.timedOut, false) ∧
    (runOne none [rawMsg "oops" "0"] = (.errored (.parseFailure "oops"), true) ∧
      (AwaitOneResult.errored (.parseFailure "oops") ≠ .timedOut)) :=
  ⟨(C3_timeout_vs_error (some fun _ => some false) [rawMsg "1" "0"]).1 rfl,
    (C3_timeout_vs_error none [rawMsg "oops" "0"]).2 (.parseFailure "oops") rfl⟩

/-! ## Claim C4 -/

/-- Claim C4, as stated, is false on the code at cap `K = 0`: the cap
check runs only after a push, so `consumeMessages` with `maxMessages = 0`
still waits for a first match and resolves with ONE event, not with
`min(0, observed) = 0` events. -/
theorem C4_counterexample :
    KafkaHelper.consumeMessages true "order-events" { maxMessages := some 0 }
        [rawMsg "1" "0"] =
      .ran { topic := "order-events", fromBeginning := true } 10000
        (.resolved [toConsumed (rawMsg "1" "0") (.num 1)], true) ∧
    [toConsumed (rawMsg "1" "0") (.num 1)].length ≠ min 0 1 := by
  exact ⟨rfl, by decide⟩

/-- Claim C4, amended: for a cap `K ≥ 1` and a stream on which every
candidate decodes and the filter returns (the error path is claim C1's
subject), `consumeMessages` resolves with the first `K` satisfying
events in arrival order — stopping the consumer early exactly when the
cap is reached — and otherwise resolves at the deadline with all
accumulated matches, possibly the empty list, as a normal outcome. -/
theorem C4_amended_cap (f : Option (Json → Option Bool)) (k : Nat)
    (s : List RawMessage) (hk : 1 ≤ k) (h : ∀ m ∈ s, isClean f m = true) :
    runMany f k s [] =
      (.resolved ((cleanMatches f s).take k),
        decide (k ≤ (cleanMatches f s).length)) := by
  have hgo := runMany_clean_go f k s [] (by simpa using hk) h
  simpa using hgo

theorem C4_witness :
    runMany none 2 [rawMsg "1" "0", rawMsg "2" "1", rawMsg "3" "2"] [] =
      (.resolved [toConsumed (rawMsg "1" "0") (.num 1),
        toConsumed (rawMsg "2" "1") (.num 2)], true) :=
  (C4_amended_cap none 2 [rawMsg "1" "0", rawMsg "2" "1", rawMsg "3" "2"]
    (by decide) (by decide)).trans rfl

/-! ## Claim C5 -/

/-- Claim C5, as stated, is false on the code: there is no deduplication
by offset (or by anything else).  Re-delivering the same partition-0,
offset-7 payload twice yields a resolved list whose two elements share
partition and offset, violating the claimed pairwise-distinctness. -/
theorem C5_counterexample :
    runMany none 10 [rawMsg "1" "7", rawMsg "1" "7"] [] =
      (.resolved [toConsumed (rawMsg "1" "7") (.num 1),
        toConsumed (rawMsg "1" "7") (.num 1)], false) ∧
    ¬ List.Pairwise
        (fun a b : ConsumedMessage =>
          ¬ (a.partition = b.partition ∧ a.offset = b.offset))
        [toConsumed (rawMsg "1" "7") (.num 1),
          toConsumed (rawMsg "1" "7") (.num 1)] := by
  refine ⟨rfl, ?_⟩
  intro h
  rw [List.pairwise_cons] at h
  exact (h.1 _ (List.mem_singleton_self _)) ⟨rfl, rfl⟩

/-- Claim C5, amended: the accumulation performs no deduplication — on a
stream whose candidates all decode and whose matches stay below the cap,
the resolved list has exactly one element per satisfying DELIVERY, so a
re-delivered event (same partition and offset) appears once per
delivery. -/
theorem C5_amended_nodedup :
    (∀ (f : Option (Json → Option Bool)) (k : Nat) (s : List RawMessage),
        (∀ m ∈ s, isClean f m = true) → (cleanMatches f s).length < k →
        runMany f k s [] = (.resolved (cleanMatches f s), false)) ∧
    (∀ (f : Option (Json → Option Bool)) (k : Nat) (m : RawMessage)
        (c : ConsumedMessage), classify f m = .hit c → 2 < k →
        runMany f k [m, m] [] = (.resolved [c, c], false)) := by
  have part1 : ∀ (f : Option (Json → Option Bool)) (k : Nat)
      (s : List RawMessage),
      (∀ m ∈ s, isClean f m = true) → (cleanMatches f s).length < k →
      runMany f k s [] = (.resolved (cleanMatches f s), false) := by
    intro f k s h hfew
    have hgo := runMany_clean_go f k s [] (by simp only [List.length_nil]; omega) h
    simp only [List.length_nil, List.nil_append, Nat.sub_zero] at hgo
    rw [hgo, List.take_of_length_le (Nat.le_of_lt hfew),
      decide_eq_false (by omega)]
  refine ⟨part1, ?_⟩
  intro f k m c hc hk
  have hclean : ∀ x ∈ [m, m], isClean f x = true := by
    intro x hx
    have hx2 : x = m := by
      rcases List.mem_cons.mp hx with h1 | h1
      · exact h1
      · exact List.mem_singleton.mp h1
    subst hx2
    simp [isClean, hc]
  have hcm : cleanMatches f [m, m] = [c, c] := by
    simp [cleanMatches, matchOf, hc]
  have := part1 f k [m, m] hclean (by rw [hcm]; simpa using hk)
  rw [hcm] at this
  exact this

theorem C5_witness :
    runMany none 10 [rawMsg "1" "7", rawMsg "1" "7"] [] =
      (.resolved [toConsumed (rawMsg "1" "7") (.num 1),
        toConsumed (rawMsg "1" "7") (.num 1)], false) :=
  C5_amended_nodedup.2 none 10 (rawMsg "1" "7")
    (toConsumed (rawMsg "1" "7") (.num 1)) rfl (by decide)

/-! ## Claim C6 -/

/-- Claim C6, as stated, is false on the code: neither wait primitive
validates its arguments.  With an empty topic and a zero (or negative)
timeout, the call does not throw before subscribing — it subscribes
(the call is a `ran`, not the `notConnected` throw, and the recorded
subscribe arguments carry the empty topic) and then settles through the
normal timeout machinery. -/
theorem C6_counterexample :
    KafkaHelper.consumeMessage true "" { timeout := some 0 } [] =
      .ran { topic := "", fromBeginning := true } 0 (.timedOut, false) ∧
    KafkaHelper.consumeMessage true "" { timeout := some 0 } [] ≠
      .notConnected ∧
    KafkaHelper.consumeMessages true "" { timeout := some (-5) } [] =
      .ran { topic := "", fromBeginning := true } (-5) (.resolved [], false) ∧
    KafkaHelper.consumeMessages true "" { timeout := some (-5) } [] ≠
      .notConnected := by
  refine ⟨rfl, ?_, rfl, ?_⟩ <;> (intro h; exact ConsumeCall.noConfusion h)

/-- Claim C6, amended: the only fail-fast check either wait primitive
performs is the connectivity guard — a call on a disconnected helper
throws synchronously before any subscribe; a connected call always
reaches `subscribe` with exactly the caller's topic (empty or not) and
the caller's timeout (zero/negative included), with no validation
error. -/
theorem C6_amended_no_validation :
    (∀ (topic : String) (opts : ConsumeOneOptions) (stream : List RawMessage),
        KafkaHelper.consumeMessage false topic opts stream = .notConnected) ∧
    (∀ (topic : String) (opts : ConsumeOneOptions) (stream : List RawMessage),
        subscribeOf (KafkaHelper.consumeMessage true topic opts stream) =
          some { topic := topic, fromBeginning := opts.fromBeginning.getD true }) ∧
    (∀ (topic : String) (opts : ConsumeManyOptions) (stream : List RawMessage),
        KafkaHelper.consumeMessages false topic opts stream = .notConnected) ∧
    (∀ (topic : String) (opts : ConsumeManyOptions) (stream : List RawMessage),
        subscribeOf (KafkaHelper.consumeMessages true topic opts stream) =
          some { topic := topic, fromBeginning := opts.fromBeginning.getD true }) :=
  ⟨fun _ _ _ => rfl, fun _ _ _ => rfl, fun _ _ _ => rfl, fun _ _ _ => rfl⟩

/-! ## Claim C8 -/

/-- Claim C8 (confirmed): on a stream whose candidates all decode and
whose filter returns on each (so nothing errors), `consumeMessage`
resolves with the FIRST satisfying event in arrival order — the head of
the ordered list of matches — never a later one. -/
theorem C8_first_match (f : Option (Json → Option Bool))
    (s : List RawMessage) (c : ConsumedMessage)
    (h : ∀ m ∈ s, isClean f m = true)
    (hfirst : (cleanMatches f s).head? = some c) :
    runOne f s = (.found c, true) := by
  rw [runOne_eq_firstSignal, firstSignal_clean f s h, hfirst]
  rfl

theorem C8_witness :
    runOne demoFilter [rawMsg "1" "0", rawMsg "2" "1", rawMsg "3" "2"] =
      (.found (toConsumed (rawMsg "2" "1") (.num 2)), true) :=
  C8_first_match demoFilter [rawMsg "1" "0", rawMsg "2" "1", rawMsg "3" "2"]
    (toConsumed (rawMsg "2" "1") (.num 2)) (by decide) rfl

/-! ## Claim C9 -/

/-- Claim C9 (confirmed): when the caller's options leave the consumption
origin unspecified, both wait primitives subscribe with
`fromBeginning = true` — the destructuring default — so the subscription
starts at the earliest available offset (the transport-level consequence
that an event published before the wait began is still observed follows
from kafkajs's `fromBeginning` semantics). -/
theorem C9_fromBeginning_default (topic : String) (o1 : ConsumeOneOptions)
    (o2 : ConsumeManyOptions) (s1 s2 : List RawMessage)
    (h1 : o1.fromBeginning = none) (h2 : o2.fromBeginning = none) :
    subscribeOf (KafkaHelper.consumeMessage true topic o1 s1) =
      some { topic := topic, fromBeginning := true } ∧
    subscribeOf (KafkaHelper.consumeMessages true topic o2 s2) =
      some { topic := topic, fromBeginning := true } := by
  constructor
  · simp [KafkaHelper.consumeMessage, subscribeOf, h1]
  · simp [KafkaHelper.consumeMessages, subscribeOf, h2]

theorem C9_witness :
    subscribeOf (KafkaHelper.consumeMessage true "order-events" {} []) =
      some { topic := "order-events", fromBeginning := true } ∧
    subscribeOf (KafkaHelper.consumeMessages true "order-events" {} []) =
      some { topic := "order-events", fromBeginning := true } :=
  C9_fromBeginning_default "order-events" {} {} [] [] rfl rfl

/-! ## Round-trip of the number printer -/

namespace JSON

theorem natCharsAux_eq (n : Nat) (acc : List Char) :
    natCharsAux n acc = natChars n ++ acc := by
  induction n using Nat.strong_induction_on generalizing acc with
  | _ n ih =>
    by_cases h : n < 10
    · conv_lhs => rw [natCharsAux]
      conv_rhs => rw [natChars, natCharsAux]
      rw [if_pos h, if_pos h]
      rfl
    · conv_lhs => rw [natCharsAux]
      conv_rhs => rw [natChars, natCharsAux]
      rw [if_neg h, if_neg h,
        ih (n / 10) (Nat.div_lt_self (by omega) (by omega)),
        ih (n / 10) (Nat.div_lt_self (by omega) (by omega))]
      simp

theorem natChars_small {n : Nat} (h : n < 10) :
    natChars n = [Nat.digitChar n] := by
  rw [natChars, natCharsAux, if_pos h]

theorem natChars_decomp {n : Nat} (h : ¬ n < 10) :
    natChars n = natChars (n / 10) ++ [Nat.digitChar (n % 10)] := by
  rw [natChars, natCharsAux, if_neg h, natCharsAux_eq]

theorem natChars_ne_nil (n : Nat) : natChars n ≠ [] := by
  by_cases h : n < 10
  · rw [natChars_small h]; simp
  · rw [natChars_decomp h]; simp

theorem digitChar_isDigit {n : Nat} (h : n < 10) :
    (Nat.digitChar n).isDigit = true := by
  interval_cases n <;> decide

theorem natChars_digits (n : Nat) : ∀ c ∈ natChars n, c.isDigit = true := by
  induction n using Nat.strong_induction_on with
  | _ n ih =>
    by_cases h : n < 10
    · rw [natChars_small h]
      intro c hc
      rw [List.mem_singleton] at hc
      subst hc
      exact digitChar_isDigit h
    · rw [natChars_decomp h]
      intro c hc
      rcases List.mem_append.mp hc with h1 | h1
      · exact ih (n / 10) (Nat.div_lt_self (by omega) (by omega)) c h1
      · rw [List.mem_singleton] at h1
        subst h1
        exact digitChar_isDigit (Nat.mod_lt _ (by omega))

theorem digitChar_val {n : Nat} (h : n < 10) :
    (Nat.digitChar n).toNat - 48 = n := by
  interval_cases n <;> decide

theorem digitsVal_append (ds : List Char) (d : Char) :
    digitsVal (ds ++ [d]) = 10 * digitsVal ds + (d.toNat - 48) := by
  rw [digitsVal, digitsVal, List.foldl_append]
  simp [Nat.mul_comm]

theorem digitsVal_natChars (n : Nat) : digitsVal (natChars n) = n := by
  induction n using Nat.strong_induction_on with
  | _ n ih =>
    by_cases h : n < 10
    · rw [natChars_small h, digitsVal]
      simp [digitChar_val h]
    · rw [natChars_decomp h, digitsVal_append,
        ih (n / 10) (Nat.div_lt_self (by omega) (by omega)),
        digitChar_val (Nat.mod_lt _ (by omega))]
      omega

theorem natChars_leading_zero : ∀ {n : Nat} {ds : List Char},
    natChars n = '0' :: ds → n = 0 ∧ ds = [] := by
  intro n
  induction n using Nat.strong_induction_on with
  | _ n ih =>
    intro ds h
    by_cases hn : n < 10
    · rw [natChars_small hn] at h
      injection h with h1 h2
      refine ⟨?_, h2.symm⟩
      interval_cases n <;> first | rfl | exact absurd h1 (by decide)
    · exfalso
      rw [natChars_decomp hn] at h
      cases hh : natChars (n / 10) with
      | nil => exact natChars_ne_nil _ hh
      | cons c cs =>
        rw [hh, List.cons_append] at h
        injection h with h1 h2
        subst h1
        have := (ih (n / 10) (Nat.div_lt_self (by omega) (by omega)) hh).1
        omega

theorem spanDigits_none (rest : List Char) (h : numDelim rest) :
    spanDigits rest = ([], rest) := by
  cases rest with
  | nil => rfl
  | cons c cs =>
    rw [spanDigits]
    rcases h with ⟨h1, -⟩
    simp [h1]

theorem spanDigits_append (ds rest : List Char)
    (hds : ∀ c ∈ ds, c.isDigit = true) (h : numDelim rest) :
    spanDigits (ds ++ rest) = (ds, rest) := by
  induction ds with
  | nil => exact spanDigits_none rest h
  | cons c cs ih =>
    rw [List.cons_append, spanDigits,
      if_pos (hds c (List.mem_cons_self c cs)),
      ih fun x hx => hds x (List.mem_cons_of_mem c hx)]

theorem parseNatNum_natChars (n : Nat) (rest : List Char) (h : numDelim rest) :
    parseNatNum (natChars n ++ rest) = some (n, rest) := by
  obtain ⟨d, ds, hnd⟩ : ∃ d ds, natChars n = d :: ds := by
    cases hh : natChars n with
    | nil => exact absurd hh (natChars_ne_nil n)
    | cons d ds => exact ⟨d, ds, rfl⟩
  have hspan := spanDigits_append (natChars n) rest (natChars_digits n) h
  rw [hnd] at hspan
  rw [hnd, parseNatNum, hspan]
  dsimp only
  have hlz : ¬ (d = '0' ∧ ds ≠ []) := by
    rintro ⟨rfl, hne⟩
    exact hne (natChars_leading_zero hnd).2
  rw [if_neg hlz]
  have hval : digitsVal (d :: ds) = n := by
    rw [← hnd, digitsVal_natChars]
  cases rest with
  | nil =>
    dsimp only
    rw [hval]
  | cons c cs =>
    rcases h with ⟨-, h2, h3, h4⟩
    have hne : ¬ (c = '.' ∨ c = 'e' ∨ c = 'E') := by tauto
    dsimp only
    rw [if_neg hne, hval]

theorem parseNum_intChars (n : Int) (rest : List Char) (h : numDelim rest) :
    parseNum (intChars n ++ rest) = some (.num n, rest) := by
  rw [intChars]
  by_cases hn : n < 0
  · rw [if_pos hn, List.cons_append, parseNum, if_pos rfl,
      parseNatNum_natChars n.natAbs rest h]
    dsimp only
    have h2 : -(↑n.natAbs : Int) = n := by omega
    rw [h2]
  · rw [if_neg hn]
    obtain ⟨d, ds, hnd⟩ : ∃ d ds, natChars n.natAbs = d :: ds := by
      cases hh : natChars n.natAbs with
      | nil => exact absurd hh (natChars_ne_nil _)
      | cons d ds => exact ⟨d, ds, rfl⟩
    have hd : d.isDigit = true :=
      natChars_digits n.natAbs d (hnd ▸ List.mem_cons_self d ds)
    rw [hnd, List.cons_append, parseNum, if_neg (by
      rintro rfl
      exact absurd hd (by decide)),
      ← List.cons_append, ← hnd, parseNatNum_natChars n.natAbs rest h]
    dsimp only
    have h2 : ((n.natAbs : Int)) = n := Int.natAbs_of_nonneg (by omega)
    rw [h2]

end JSON

/-! ## Round-trip of the string escaper -/

namespace JSON

theorem hexVal_digitChar {n : Nat} (h : n < 16) :
    hexVal (Nat.digitChar n) = some n := by
  interval_cases n <;> decide

theorem skipWs_cons {c : Char} (h : isWs c = false) (cs : List Char) :
    skipWs (c :: cs) = c :: cs := by
  rw [skipWs, h]
  rfl

theorem expectLit_append (lit : List Char) (v : Json) (rest : List Char) :
    expectLit lit v (lit ++ rest) = some (v, rest) := by
  induction lit with
  | nil => rfl
  | cons l lit ih => rw [List.cons_append, expectLit, if_pos rfl, ih]

/-- A decimal digit is none of the characters the recursive descent
dispatches on before falling through to the number token. -/
theorem digit_notSpecial {c : Char} (h : c.isDigit = true) :
    isWs c = false ∧ c ≠ 'n' ∧ c ≠ 't' ∧ c ≠ 'f' ∧ c ≠ '"' ∧ c ≠ '[' ∧
      c ≠ Char.ofNat 123 ∧ c ≠ ']' ∧ c ≠ '-' := by
  refine ⟨?_, ?_, ?_, ?_, ?_, ?_, ?_, ?_, ?_⟩
  · cases hws : isWs c with
    | false => rfl
    | true =>
      exfalso
      simp only [isWs, Bool.or_eq_true, decide_eq_true_eq] at hws
      rcases hws with ((rfl | rfl) | rfl) | rfl <;> exact absurd h (by decide)
  all_goals intro he
  all_goals rw [he] at h
  all_goals exact absurd h (by decide)

/-- One simple (non-`u`) escape step of the string body. -/
theorem psb_simple_escape (e c2 : Char) (tail : List Char)
    (hu : e ≠ 'u') (h : unescapeChar e = some c2) :
    parseStringBody ('\\' :: e :: tail) =
      match parseStringBody tail with
      | some (s, r) => some (c2 :: s, r)
      | none => none := by
  rw [parseStringBody.eq_def]
  dsimp only
  rw [if_neg (by decide : ¬ ('\\' : Char) = '"'), if_pos rfl, if_neg hu, h]

/-- One verbatim-character step of the string body. -/
theorem psb_plain (c : Char) (tail : List Char)
    (h1 : ¬ c = '"') (h2 : ¬ c = '\\') (h3 : ¬ c.toNat < 32) :
    parseStringBody (c :: tail) =
      match parseStringBody tail with
      | some (s, r) => some (c :: s, r)
      | none => none := by
  rw [parseStringBody.eq_def]
  dsimp only
  rw [if_neg h1, if_neg h2, if_neg h3]

/-- One `\u00XX` escape step of the string body. -/
theorem psb_u_escape (q r : Nat) (tail : List Char)
    (hq : q < 16) (hr : r < 16) (hlow : 16 * q + r < 32) :
    parseStringBody ('\\' :: 'u' :: '0' :: '0' ::
        Nat.digitChar q :: Nat.digitChar r :: tail) =
      match parseStringBody tail with
      | some (s, rr) => some (Char.ofNat (16 * q + r) :: s, rr)
      | none => none := by
  rw [parseStringBody.eq_def]
  dsimp only
  rw [if_neg (by decide : ¬ ('\\' : Char) = '"'), if_pos rfl, if_pos rfl]
  rw [show hexVal '0' = some 0 by decide, hexVal_digitChar hq, hexVal_digitChar hr]
  dsimp only
  rw [show ((0 * 16 + 0) * 16 + q) * 16 + r = 16 * q + r by omega]
  rw [if_pos (by omega : 16 * q + r < 55296)]

theorem escCharRT (c : Char) (tail s r : List Char)
    (hres : parseStringBody tail = some (s, r)) :
    parseStringBody (escapeChar c ++ tail) = some (c :: s, r) := by
  rw [escapeChar]
  by_cases h1 : c = '"'
  · subst h1
    rw [if_pos rfl, List.cons_append, List.cons_append, List.nil_append,
      psb_simple_escape '"' '"' tail (by decide) (by decide), hres]
  rw [if_neg h1]
  by_cases h2 : c = '\\'
  · subst h2
    rw [if_pos rfl, List.cons_append, List.cons_append, List.nil_append,
      psb_simple_escape '\\' '\\' tail (by decide) (by decide), hres]
  rw [if_neg h2]
  by_cases h3 : c = Char.ofNat 8
  · subst h3
    rw [if_pos rfl, List.cons_append, List.cons_append, List.nil_append,
      psb_simple_escape 'b' (Char.ofNat 8) tail (by decide) (by decide), hres]
  rw [if_neg h3]
  by_cases h4 : c = Char.ofNat 12
  · subst h4
    rw [if_pos rfl, List.cons_append, List.cons_append, List.nil_append,
      psb_simple_escape 'f' (Char.ofNat 12) tail (by decide) (by decide), hres]
  rw [if_neg h4]
  by_cases h5 : c = '\n'
  · subst h5
    rw [if_pos rfl, List.cons_append, List.cons_append, List.nil_append,
      psb_simple_escape 'n' '\n' tail (by decide) (by decide), hres]
  rw [if_neg h5]
  by_cases h6 : c = Char.ofNat 13
  · subst h6
    rw [if_pos rfl, List.cons_append, List.cons_append, List.nil_append,
      psb_simple_escape 'r' (Char.ofNat 13) tail (by decide) (by decide), hres]
  rw [if_neg h6]
  by_cases h7 : c = '\t'
  · subst h7
    rw [if_pos rfl, List.cons_append, List.cons_append, List.nil_append,
      psb_simple_escape 't' '\t' tail (by decide) (by decide), hres]
  rw [if_neg h7]
  by_cases h8 : c.toNat < 32
  · rw [if_pos h8]
    simp only [List.cons_append, List.nil_append]
    rw [psb_u_escape (c.toNat / 16) (c.toNat % 16) tail (by omega) (by omega)
      (by omega), hres]
    rw [show 16 * (c.toNat / 16) + c.toNat % 16 = c.toNat by omega,
      Char.ofNat_toNat]
  · rw [if_neg h8]
    rw [List.cons_append, List.nil_append, psb_plain c tail h1 h2 h8, hres]

theorem escListRT (cs rest : List Char) :
    parseStringBody ((cs.map escapeChar).flatten ++ '"' :: rest) =
      some (cs, rest) := by
  induction cs with
  | nil =>
    simp only [List.map_nil, List.flatten_nil, List.nil_append]
    rw [parseStringBody.eq_def]
    dsimp only
    rw [if_pos rfl]
  | cons c cs ih =>
    rw [List.map_cons, List.flatten_cons, List.append_assoc]
    exact escCharRT c _ cs rest ih

end JSON

/-! ## Round-trip of the full serializer -/

namespace JSON

theorem jsonFuel_pos (v : Json) : 1 ≤ jsonFuel v := by
  cases v with
  | null => simp [jsonFuel]
  | bool b => simp [jsonFuel]
  | num n => simp [jsonFuel]
  | str s => simp [jsonFuel]
  | arr xs => cases xs <;> simp [jsonFuel]
  | obj kvs => cases kvs <;> simp [jsonFuel]

theorem numDelim_moreElems (xs : List Json) (rest : List Char) :
    numDelim (moreElems xs ++ ']' :: rest) := by
  cases xs with
  | nil =>
    rw [moreElems, List.nil_append]
    exact ⟨by decide, by decide, by decide, by decide⟩
  | cons y ys =>
    rw [moreElems, List.cons_append]
    exact ⟨by decide, by decide, by decide, by decide⟩

theorem numDelim_moreFields (kvs : List (String × Json)) (rest : List Char) :
    numDelim (moreFields kvs ++ Char.ofNat 125 :: rest) := by
  cases kvs with
  | nil =>
    rw [moreFields, List.nil_append]
    exact ⟨by decide, by decide, by decide, by decide⟩
  | cons kv kvs =>
    rw [moreFields, List.cons_append]
    exact ⟨by decide, by decide, by decide, by decide⟩

/-- The first character of a serialized value: it exists, is not
whitespace, and is not a closing bracket. -/
theorem stringify_head (v : Json) :
    ∃ c0 t0, stringifyChars v = c0 :: t0 ∧ isWs c0 = false ∧ c0 ≠ ']' := by
  cases v with
  | null =>
    exact ⟨'n', ['u', 'l', 'l'],
      by rw [stringifyChars, nullChars], by decide, by decide⟩
  | bool b =>
    cases b with
    | true =>
      exact ⟨'t', ['r', 'u', 'e'],
        by rw [stringifyChars, boolChars, if_pos rfl], by decide, by decide⟩
    | false =>
      exact ⟨'f', ['a', 'l', 's', 'e'],
        by rw [stringifyChars, boolChars, if_neg (by decide)], by decide, by decide⟩
  | num n =>
    by_cases hn : n < 0
    · exact ⟨'-', natChars n.natAbs,
        by rw [stringifyChars, intChars, if_pos hn], by decide, by decide⟩
    · obtain ⟨d, ds, hnd⟩ : ∃ d ds, natChars n.natAbs = d :: ds := by
        cases hh : natChars n.natAbs with
        | nil => exact absurd hh (natChars_ne_nil _)
        | cons d ds => exact ⟨d, ds, rfl⟩
      have hd : d.isDigit = true :=
        natChars_digits n.natAbs d (hnd ▸ List.mem_cons_self d ds)
      obtain ⟨hw, -, -, -, -, -, -, hbr, -⟩ := digit_notSpecial hd
      exact ⟨d, ds, by rw [stringifyChars, intChars, if_neg hn, hnd], hw, hbr⟩
  | str s =>
    refine ⟨'"', (s.data.map escapeChar).flatten ++ ['"'], ?_, by decide, by decide⟩
    rw [stringifyChars, quoteChars, List.cons_append]
  | arr xs =>
    cases xs with
    | nil => exact ⟨'[', [']'], by rw [stringifyChars], by decide, by decide⟩
    | cons x xs =>
      exact ⟨'[', (stringifyChars x ++ moreElems xs) ++ [']'],
        by rw [stringifyChars, List.cons_append], by decide, by decide⟩
  | obj kvs =>
    cases kvs with
    | nil =>
      exact ⟨Char.ofNat 123, [Char.ofNat 125], by rw [stringifyChars], by decide, by decide⟩
    | cons kv kvs =>
      exact ⟨Char.ofNat 123, (fieldChars kv ++ moreFields kvs) ++ [Char.ofNat 125],
        by rw [stringifyChars, List.cons_append], by decide, by decide⟩

end JSON

namespace JSON

mutual

theorem jsonFuel_bound : ∀ v : Json, jsonFuel v ≤ (stringifyChars v).length
  | .null => by simp [jsonFuel, stringifyChars, nullChars]
  | .bool b => by cases b <;> simp [jsonFuel, stringifyChars, boolChars]
  | .num n => by
    obtain ⟨c0, t0, he, -, -⟩ := stringify_head (.num n)
    rw [he]
    simp [jsonFuel]
  | .str s => by
    obtain ⟨c0, t0, he, -, -⟩ := stringify_head (.str s)
    rw [he]
    simp [jsonFuel]
  | .arr [] => by simp [jsonFuel, stringifyChars]
  | .arr (x :: xs) => by
    have h1 := jsonFuel_bound x
    have h2 := elemsFuel_bound xs
    rw [jsonFuel, stringifyChars, elemsFuel]
    simp only [List.length_append, List.length_cons, List.length_nil]
    omega
  | .obj [] => by simp [jsonFuel, stringifyChars]
  | .obj ((k, v) :: kvs) => by
    have h1 := jsonFuel_bound v
    have h2 := fieldsFuel_bound kvs
    rw [jsonFuel, stringifyChars, fieldsFuel, fieldChars, quoteChars]
    simp only [List.length_append, List.length_cons, List.length_nil]
    omega

theorem elemsFuel_bound : ∀ xs : List Json, elemsFuel xs ≤ (moreElems xs).length
  | [] => by simp [elemsFuel, moreElems]
  | x :: xs => by
    have h1 := jsonFuel_bound x
    have h2 := elemsFuel_bound xs
    rw [elemsFuel, moreElems]
    simp only [List.length_append, List.length_cons, List.length_nil]
    omega

theorem fieldsFuel_bound :
    ∀ kvs : List (String × Json), fieldsFuel kvs ≤ (moreFields kvs).length
  | [] => by simp [fieldsFuel, moreFields]
  | (k, v) :: kvs => by
    have h1 := jsonFuel_bound v
    have h2 := fieldsFuel_bound kvs
    rw [fieldsFuel, moreFields, fieldChars, quoteChars]
    simp only [List.length_append, List.length_cons, List.length_nil]
    omega

end

end JSON

namespace JSON

theorem fieldChars_head (k : String) (v : Json) :
    ∃ t, fieldChars (k, v) = '"' :: t := by
  rw [fieldChars, quoteChars, List.cons_append]
  exact ⟨_, rfl⟩

mutual

theorem parseVal_stringify : ∀ (v : Json) (fuel : Nat) (rest : List Char),
    jsonFuel v ≤ fuel → numDelim rest →
    parseVal fuel (stringifyChars v ++ rest) = some (v, rest)
  | v, 0, rest => by
    intro hf hd
    exact absurd hf (by have := jsonFuel_pos v; omega)
  | .null, fuel + 1, rest => by
    intro hf hd
    rw [stringifyChars, nullChars, parseVal]
    simp only [List.cons_append, List.nil_append]
    rw [skipWs_cons (by decide)]
    dsimp only
    rw [if_pos rfl]
    exact expectLit_append ['u', 'l', 'l'] .null rest
  | .bool true, fuel + 1, rest => by
    intro hf hd
    rw [stringifyChars, boolChars, if_pos rfl, parseVal]
    simp only [List.cons_append, List.nil_append]
    rw [skipWs_cons (by decide)]
    dsimp only
    rw [if_neg (by decide), if_pos rfl]
    exact expectLit_append ['r', 'u', 'e'] (.bool true) rest
  | .bool false, fuel + 1, rest => by
    intro hf hd
    rw [stringifyChars, boolChars, if_neg (by decide), parseVal]
    simp only [List.cons_append, List.nil_append]
    rw [skipWs_cons (by decide)]
    dsimp only
    rw [if_neg (by decide), if_neg (by decide), if_pos rfl]
    exact expectLit_append ['a', 'l', 's', 'e'] (.bool false) rest
  | .num n, fuel + 1, rest => by
    intro hf hd
    rw [stringifyChars, parseVal]
    by_cases hn : n < 0
    · rw [intChars, if_pos hn]
      simp only [List.cons_append]
      rw [skipWs_cons (by decide)]
      dsimp only
      rw [if_neg (by decide), if_neg (by decide), if_neg (by decide),
        if_neg (by decide), if_neg (by decide), if_neg (by decide)]
      have hp := parseNum_intChars n rest hd
      rw [intChars, if_pos hn, List.cons_append] at hp
      exact hp
    · obtain ⟨d, ds, hnd⟩ : ∃ d ds, natChars n.natAbs = d :: ds := by
        cases hh : natChars n.natAbs with
        | nil => exact absurd hh (natChars_ne_nil _)
        | cons d ds => exact ⟨d, ds, rfl⟩
      have hdig : d.isDigit = true :=
        natChars_digits n.natAbs d (hnd ▸ List.mem_cons_self d ds)
      obtain ⟨hw, hne1, hne2, hne3, hne4, hne5, hne6, -, -⟩ :=
        digit_notSpecial hdig
      rw [intChars, if_neg hn, hnd]
      simp only [List.cons_append]
      rw [skipWs_cons hw]
      dsimp only
      rw [if_neg hne1, if_neg hne2, if_neg hne3, if_neg hne4, if_neg hne5,
        if_neg hne6]
      have hp := parseNum_intChars n rest hd
      rw [intChars, if_neg hn, hnd, List.cons_append] at hp
      exact hp
  | .str s, fuel + 1, rest => by
    intro hf hd
    rw [stringifyChars, parseVal, quoteChars]
    simp only [List.cons_append, List.append_assoc, List.nil_append]
    rw [skipWs_cons (by decide)]
    dsimp only
    rw [if_neg (by decide), if_neg (by decide), if_neg (by decide), if_pos rfl]
    rw [escListRT]
  | .arr [], fuel + 1, rest => by
    intro hf hd
    rw [stringifyChars, parseVal]
    simp only [List.cons_append, List.nil_append]
    rw [skipWs_cons (by decide)]
    dsimp only
    rw [if_neg (by decide), if_neg (by decide), if_neg (by decide),
      if_neg (by decide), if_pos rfl]
    rw [skipWs_cons (by decide)]
    dsimp only
    rw [if_pos rfl]
  | .arr (x :: xs), fuel + 1, rest => by
    intro hf hd
    rw [stringifyChars, parseVal]
    simp only [List.cons_append, List.append_assoc, List.nil_append]
    rw [skipWs_cons (by decide)]
    dsimp only
    rw [if_neg (by decide), if_neg (by decide), if_neg (by decide),
      if_neg (by decide), if_pos rfl]
    obtain ⟨c0, t0, he, hw0, hbr0⟩ := stringify_head x
    rw [he, List.cons_append, skipWs_cons hw0]
    dsimp only
    rw [if_neg hbr0, ← List.cons_append, ← he,
      parseElems_stringify x xs fuel rest (by rw [jsonFuel] at hf; omega)]
  | .obj [], fuel + 1, rest => by
    intro hf hd
    rw [stringifyChars, parseVal]
    simp only [List.cons_append, List.nil_append]
    rw [skipWs_cons (by decide)]
    dsimp only
    rw [if_neg (by decide), if_neg (by decide), if_neg (by decide),
      if_neg (by decide), if_neg (by decide), if_pos rfl]
    rw [skipWs_cons (by decide)]
    dsimp only
    rw [if_pos rfl]
  | .obj ((k, v) :: kvs), fuel + 1, rest => by
    intro hf hd
    rw [stringifyChars, parseVal]
    simp only [List.cons_append, List.append_assoc, List.nil_append]
    rw [skipWs_cons (by decide)]
    dsimp only
    rw [if_neg (by decide), if_neg (by decide), if_neg (by decide),
      if_neg (by decide), if_neg (by decide), if_pos rfl]
    obtain ⟨tF, hF⟩ := fieldChars_head k v
    rw [hF, List.cons_append, skipWs_cons (by decide)]
    dsimp only
    rw [if_neg (by decide), ← List.cons_append, ← hF,
      parseFields_stringify k v kvs fuel rest (by rw [jsonFuel] at hf; omega)]

theorem parseElems_stringify : ∀ (x : Json) (xs : List Json) (fuel : Nat)
    (rest : List Char), elemsFuel (x :: xs) ≤ fuel →
    parseElems fuel (stringifyChars x ++ (moreElems xs ++ ']' :: rest)) =
      some (x :: xs, rest)
  | x, xs, 0, rest => by
    intro hf
    rw [elemsFuel] at hf
    exact absurd hf (by have := jsonFuel_pos x; omega)
  | x, xs, fuel + 1, rest => by
    intro hf
    rw [parseElems,
      parseVal_stringify x fuel _ (by rw [elemsFuel] at hf; omega)
        (numDelim_moreElems xs rest)]
    dsimp only
    cases xs with
    | nil =>
      rw [moreElems, List.nil_append, skipWs_cons (by decide)]
      dsimp only
      rw [if_neg (by decide), if_pos rfl]
    | cons y ys =>
      rw [moreElems, List.cons_append, skipWs_cons (by decide)]
      dsimp only
      rw [if_pos rfl, List.append_assoc,
        parseElems_stringify y ys fuel rest (by rw [elemsFuel] at hf; omega)]

theorem parseFields_stringify : ∀ (k : String) (v : Json)
    (kvs : List (String × Json)) (fuel : Nat) (rest : List Char),
    fieldsFuel ((k, v) :: kvs) ≤ fuel →
    parseFields fuel
        (fieldChars (k, v) ++ (moreFields kvs ++ Char.ofNat 125 :: rest)) =
      some ((k, v) :: kvs, rest)
  | k, v, kvs, 0, rest => by
    intro hf
    rw [fieldsFuel] at hf
    exact absurd hf (by have := jsonFuel_pos v; omega)
  | k, v, kvs, fuel + 1, rest => by
    intro hf
    rw [parseFields, fieldChars, quoteChars]
    simp only [List.cons_append, List.append_assoc, List.nil_append]
    rw [skipWs_cons (by decide)]
    dsimp only
    rw [if_pos rfl, escListRT]
    dsimp only
    rw [skipWs_cons (by decide)]
    dsimp only
    rw [if_pos rfl,
      parseVal_stringify v fuel _ (by rw [fieldsFuel] at hf; omega)
        (numDelim_moreFields kvs rest)]
    dsimp only
    cases kvs with
    | nil =>
      rw [moreFields, List.nil_append, skipWs_cons (by decide)]
      dsimp only
      rw [if_neg (by decide), if_pos rfl]
    | cons kv2 kvs2 =>
      obtain ⟨k2, v2⟩ := kv2
      rw [moreFields, List.cons_append, skipWs_cons (by decide)]
      dsimp only
      rw [if_pos rfl, List.append_assoc,
        parseFields_stringify k2 v2 kvs2 fuel rest
          (by rw [fieldsFuel] at hf; omega)]

end

end JSON

namespace JSON

/-- Round-trip of the embedded ECMAScript codec: `JSON.parse` recovers
exactly the value `JSON.stringify` serialized. -/
theorem parse_stringify (v : Json) : parse (stringify v) = some v := by
  rw [stringify, parse]
  have hrt := parseVal_stringify v ((stringifyChars v).length + 1) []
    (by have := jsonFuel_bound v; omega) trivial
  rw [List.append_nil] at hrt
  have hdata : (String.mk (stringifyChars v)).data = stringifyChars v := rfl
  have hlen : (String.mk (stringifyChars v)).length =
      (stringifyChars v).length := rfl
  rw [hdata, hlen, hrt]
  rfl

end JSON

/-- JavaScript `Buffer#toString` on a delivered key is the identity in
the model. -/
theorem consumedKeyOf_id (k : Option String) : consumedKeyOf k = k := by
  cases k <;> rfl

/-- Claim C10, amended: producing a JSON-serializable value `m` and
consuming its delivery yields an event whose value is structurally equal
to `m` — `JSON.parse` inverts `JSON.stringify` — but the received key is
the string form of the produced key only when that key is truthy: an
absent key OR an empty-string key is sent as `null` (JavaScript
truthiness in `key ? String(key) : null`) and received as `null`.  The
hypothesis `wfKeys m` restricts the statement to values with
duplicate-free object keys, the image of actual JavaScript values. -/
theorem C10_amended_roundtrip (m : Json) (key : Option String)
    (topic : String) (partition : Nat) (offset timestamp : String)
    (rec : KafkaHelper.ProducedRecord)
    (_hwf : wfKeys m = true)
    (hprod : KafkaHelper.produceMessage true m key = some rec) :
    runOne none [deliver rec topic partition offset timestamp] =
      (.found { topic := topic, partition := partition, offset := offset,
                key := match key with
                  | some k => if k = "" then none else some k
                  | none => none,
                value := m, timestamp := timestamp }, true) := by
  rw [KafkaHelper.produceMessage.eq_def] at hprod
  simp only [Bool.not_true, Bool.false_eq_true, if_false] at hprod
  injection hprod with hrec
  subst hrec
  rw [runOne, classify]
  dsimp only [deliver]
  rw [JSON.parse_stringify]
  dsimp only [applyFilter]
  rw [toConsumed, consumedKeyOf_id]
  cases key <;> rfl

/-- Claim C10, as stated, is false for the key: producing the value `5`
with the empty-string key sends a `null` key (the empty string is falsy
in `key ? String(key) : null`), so the consumed event's key is `null`,
not the string form `""` of the produced key.  The value itself does
round-trip. -/
theorem C10_counterexample :
    KafkaHelper.produceMessage true (Json.num 5) (some "") =
      some { key := none, value := "5" } ∧
    runOne none
        [deliver { key := none, value := "5" } "order-events" 0 "0" "t0"] =
      (.found { topic := "order-events", partition := 0, offset := "0",
                key := none, value := Json.num 5, timestamp := "t0" },
        true) ∧
    (none : Option String) ≠ some "" := by
  have h5 : JSON.stringify (Json.num 5) = "5" := by
    have hc : JSON.stringifyChars (Json.num 5) = ['5'] := by
      rw [JSON.stringifyChars, JSON.intChars, if_neg (by omega),
        show (5 : Int).natAbs = 5 from rfl, JSON.natChars_small (by omega)]
      decide
    rw [JSON.stringify, hc]
  refine ⟨?_, rfl, by simp⟩
  rw [KafkaHelper.produceMessage.eq_def]
  simp only [Bool.not_true, Bool.false_eq_true, if_false]
  rw [h5]
  simp

theorem C10_witness :
    wfKeys (Json.obj [("orderId", Json.str "X")]) = true ∧
    runOne none [deliver { key := some "k7",
                           value := JSON.stringify
                             (Json.obj [("orderId", Json.str "X")]) }
        "order-events" 0 "0" "t0"] =
      (.found { topic := "order-events", partition := 0, offset := "0",
                key := some "k7",
                value := Json.obj [("orderId", Json.str "X")],
                timestamp := "t0" }, true) := by
  have hwf : wfKeys (Json.obj [("orderId", Json.str "X")]) = true := by
    simp [wfKeys, wfKeysObj, noDupStr]
  refine ⟨hwf, ?_⟩
  have hp : KafkaHelper.produceMessage true (Json.obj [("orderId", Json.str "X")])
      (some "k7") = some { key := some "k7",
                           value := JSON.stringify
                             (Json.obj [("orderId", Json.str "X")]) } := by
    rw [KafkaHelper.produceMessage.eq_def]
    simp only [Bool.not_true, Bool.false_eq_true, if_false]
    rw [if_neg (by decide)]
  exact (C10_amended_roundtrip (Json.obj [("orderId", Json.str "X")])
    (some "k7") "order-events" 0 "0" "t0" _ hwf hp).trans (by simp)
